import Mathlib

/-!
Verification of the meg ESP32 firmware core (src/sketches/meg/meg.ino):
the wraparound-safe monotonic clock, the performance-counter subsystem,
the sampler, the BLE wire-message codec, and the main control loop.

Machine integers are modelled as `Nat` with explicit reduction modulo
`2^16`, `2^32` and `2^64` wherever the C++ code's fixed-width arithmetic
can wrap.  The hardware microsecond counter `micros()` is modelled as an
oracle: either the true elapsed time `t` (the hardware returns
`t % 2^32`), or an abstract stream of readings indexed by call count.
-/

namespace meg

/-- 2^16, one more than the largest `uint16_t` value. -/
def U16 : Nat := 65536

/-- 2^32, one more than the largest `uint32_t` value; the modulus of the
32-bit hardware microsecond counter. -/
def U32 : Nat := 4294967296

/-- 2^64, one more than the largest `uint64_t` value. -/
def U64 : Nat := 18446744073709551616

/-- Unsigned 32-bit subtraction `a - b` as C computes it on `uint32_t`:
the result wraps modulo 2^32. -/
def u32sub (a b : Nat) : Nat := (a + (U32 - b % U32)) % U32

/-- Unsigned 64-bit subtraction `a - b` as C computes it on `uint64_t`:
the result wraps modulo 2^64. -/
def u64sub (a b : Nat) : Nat := (a + (U64 - b % U64)) % U64

/-- The state of the 64-bit monotonic clock: the globals
`g_ClockLastMicros` (a `uint32_t`) and `g_ClockAccumulator`
(a `uint64_t`) from meg.ino. -/
structure ClockState where
  lastMicros : Nat
  accumulator : Nat
  deriving Repr, DecidableEq

/-- `GetClockValue` from meg.ino, with the raw `micros()` reading `cur`
(a `uint32_t` value) passed explicitly.  It adds the unsigned 32-bit
difference `cur - g_ClockLastMicros` to the 64-bit accumulator, stores
`cur` as the new previous reading, and returns the accumulator. -/
def GetClockValue (cur : Nat) (c : ClockState) : Nat × ClockState :=
  let acc := (c.accumulator + u32sub cur c.lastMicros) % U64
  (acc, { lastMicros := cur, accumulator := acc })

/-- Runs `GetClockValue` once per entry of `ts`, where `ts.get i` is the
true elapsed hardware time (in microseconds since boot) at which the
i-th call happens; the 32-bit hardware counter therefore reads
`t % 2^32` at that moment.  Returns the list of returned clock values
and the final clock state. -/
def clockRunTimes : List Nat → ClockState → List Nat × ClockState
  | [], c => ([], c)
  | t :: rest, c =>
      let p := GetClockValue (t % U32) c
      let q := clockRunTimes rest p.2
      (p.1 :: q.1, q.2)

/-- Sum of the differences between consecutive elements of a list. -/
def diffSum : List Nat → Nat
  | a :: b :: rest => (b - a) + diffSum (b :: rest)
  | _ => 0

lemma u32sub_of_le (a b : Nat) (h : b ≤ a) :
    u32sub (a % U32) (b % U32) = (a - b) % U32 := by
  unfold u32sub U32 at *
  omega

lemma u32sub_exact (a b : Nat) (hle : b ≤ a) (hgap : a - b < U32) :
    u32sub (a % U32) (b % U32) = a - b := by
  rw [u32sub_of_le a b hle]
  exact Nat.mod_eq_of_lt hgap

lemma clockRunTimes_exact (ts : List Nat) : ∀ tprev : Nat,
    List.Chain (fun a b => a ≤ b ∧ b - a < U32) tprev ts →
    (∀ t ∈ ts, t < U64) → tprev < U64 →
    (clockRunTimes ts ⟨tprev % U32, tprev⟩).1 = ts := by
  induction ts with
  | nil => intro tprev _ _ _; rfl
  | cons t rest ih =>
      intro tprev hchain hb hp
      rcases hchain with _ | ⟨⟨hle, hgap⟩, hchain⟩
      have ht : t < U64 := hb t (List.mem_cons_self t rest)
      have hstep : GetClockValue (t % U32) ⟨tprev % U32, tprev⟩ =
          (t, ⟨t % U32, t⟩) := by
        unfold GetClockValue
        rw [u32sub_exact t tprev hle hgap]
        have : tprev + (t - tprev) = t := by omega
        rw [this, Nat.mod_eq_of_lt ht]
      simp only [clockRunTimes, hstep]
      rw [ih t hchain (fun x hx => hb x (List.mem_cons_of_mem t hx)) ht]

lemma chain_le_getLastD (b : Nat) (l : List Nat) :
    List.Chain (· ≤ ·) b l → b ≤ (b :: l).getLastD 0 := by
  induction l generalizing b with
  | nil => intro _; simp
  | cons c rest ih =>
      intro h
      rcases h with _ | ⟨hbc, h⟩
      have := ih c h
      simp only [List.getLastD_cons] at *
      omega

lemma diffSum_chain (l : List Nat) :
    List.Chain' (· ≤ ·) l → diffSum l = l.getLastD 0 - l.headD 0 := by
  induction l with
  | nil => intro _; rfl
  | cons a rest ih =>
      intro h
      cases rest with
      | nil => simp [diffSum]
      | cons b rest2 =>
          rcases h with _ | ⟨hab, h⟩
          have htail := ih h
          have hble : b ≤ (b :: rest2).getLastD 0 := chain_le_getLastD b rest2 h
          simp only [diffSum, List.getLastD_cons, List.headD_cons] at *
          omega

/-- C1: starting from the boot state (previous reading 0, accumulator 0),
for any sequence of call times in which consecutive calls (and the first
call after boot) are spaced less than one 32-bit wrap period 2^32 µs
apart, `GetClockValue` returns exactly the true elapsed hardware times:
the returned values are nondecreasing and the differences between
consecutive returned values sum to the true elapsed hardware time, even
across wraps of the 32-bit counter, by unsigned-subtraction wraparound
arithmetic.  (The true call times are assumed below 2^64 µs, i.e. the
64-bit accumulator itself does not overflow.) -/
theorem GetClockValue_sequence_correct (ts : List Nat)
    (hchain : List.Chain (fun a b => a ≤ b ∧ b - a < U32) 0 ts)
    (hbound : ∀ t ∈ ts, t < U64) :
    (clockRunTimes ts ⟨0, 0⟩).1 = ts ∧
    List.Chain' (· ≤ ·) (clockRunTimes ts ⟨0, 0⟩).1 ∧
    diffSum (clockRunTimes ts ⟨0, 0⟩).1 = ts.getLastD 0 - ts.headD 0 := by
  have h0 : (⟨0, 0⟩ : ClockState) = ⟨0 % U32, 0⟩ := rfl
  have hexact : (clockRunTimes ts ⟨0, 0⟩).1 = ts := by
    rw [h0]; exact clockRunTimes_exact ts 0 hchain hbound (by unfold U64; omega)
  have hmono : List.Chain' (· ≤ ·) ts := by
    have h1 : List.Chain (· ≤ ·) 0 ts :=
      List.Chain.imp (fun a b hab => hab.1) hchain
    have h2 : List.Chain' (· ≤ ·) (0 :: ts) := h1
    exact h2.tail
  refine ⟨hexact, ?_, ?_⟩
  · rw [hexact]; exact hmono
  · rw [hexact]; exact diffSum_chain ts hmono

/-- C1 witness: a two-call sequence that crosses the 32-bit wrap
boundary (the second call happens after the hardware counter wraps). -/
theorem GetClockValue_sequence_correct_witness :
    (List.Chain (fun a b => a ≤ b ∧ b - a < U32) 0 [4294967000, 4295000000] ∧
      ∀ t ∈ [4294967000, 4295000000], t < U64) ∧
    ((clockRunTimes [4294967000, 4295000000] ⟨0, 0⟩).1 =
        [4294967000, 4295000000] ∧
      List.Chain' (· ≤ ·)
        (clockRunTimes [4294967000, 4295000000] ⟨0, 0⟩).1 ∧
      diffSum (clockRunTimes [4294967000, 4295000000] ⟨0, 0⟩).1 =
        ([4294967000, 4295000000] : List Nat).getLastD 0 -
          ([4294967000, 4295000000] : List Nat).headD 0) :=
  ⟨⟨.cons (by decide) (.cons (by decide) .nil), by decide⟩,
    GetClockValue_sequence_correct [4294967000, 4295000000]
      (.cons (by decide) (.cons (by decide) .nil)) (by decide)⟩

lemma mem_zip_cons_iff_local {α β : Type} {a : α} {b : β} {l1 : List α}
    {l2 : List β} {p : α × β} :
    p ∈ (a :: l1).zip (b :: l2) ↔ (p.1 = a ∧ p.2 = b) ∨ p ∈ l1.zip l2 := by
  cases p
  simp [List.zip_cons_cons, Prod.ext_iff]

lemma clockRun_mono_aux (ts : List Nat) : ∀ tprev acc : Nat,
    acc ≤ tprev → List.Chain (· ≤ ·) tprev ts →
    (∀ t ∈ ts, t < U64) → tprev < U64 →
    List.Chain' (· ≤ ·) (acc :: (clockRunTimes ts ⟨tprev % U32, acc⟩).1) ∧
    ∀ p ∈ (clockRunTimes ts ⟨tprev % U32, acc⟩).1.zip ts, p.1 ≤ p.2 := by
  induction ts with
  | nil =>
      intro tprev acc _ _ _ _
      exact ⟨List.chain'_singleton acc, by intro p hp; simp at hp⟩
  | cons t rest ih =>
      intro tprev acc hacc hchain hb hp
      rcases hchain with _ | ⟨hle, hchain⟩
      have ht : t < U64 := hb t (List.mem_cons_self t rest)
      have hdelta : u32sub (t % U32) (tprev % U32) = (t - tprev) % U32 :=
        u32sub_of_le t tprev hle
      have hdle : (t - tprev) % U32 ≤ t - tprev := Nat.mod_le _ _
      have hacc' :
          (acc + u32sub (t % U32) (tprev % U32)) % U64 =
            acc + (t - tprev) % U32 := by
        rw [hdelta]
        exact Nat.mod_eq_of_lt (by omega)
      have hstep : GetClockValue (t % U32) ⟨tprev % U32, acc⟩ =
          (acc + (t - tprev) % U32, ⟨t % U32, acc + (t - tprev) % U32⟩) := by
        unfold GetClockValue
        rw [hacc']
      have hnewle : acc + (t - tprev) % U32 ≤ t := by omega
      have := ih t (acc + (t - tprev) % U32) hnewle hchain
        (fun x hx => hb x (List.mem_cons_of_mem t hx)) ht
      simp only [clockRunTimes, hstep]
      constructor
      · exact List.Chain'.cons (by omega) this.1
      · intro p hp
        rcases mem_zip_cons_iff_local.mp hp with h | h
        · rw [h.1, h.2]; omega
        · exact this.2 p h

/-- C10: with no precondition on call spacing — regardless of how many
32-bit wraps elapse between calls — the values returned by
`GetClockValue` are nondecreasing, and each returned value is at most
the true elapsed hardware time (with two or more wraps between calls
the clock merely undercounts, it never decreases), provided the 64-bit
accumulator does not exceed 2^64 (the true call times stay below
2^64 µs). -/
theorem GetClockValue_monotone (ts : List Nat)
    (hmono : List.Chain (· ≤ ·) 0 ts)
    (hbound : ∀ t ∈ ts, t < U64) :
    List.Chain' (· ≤ ·) (clockRunTimes ts ⟨0, 0⟩).1 ∧
    ∀ p ∈ (clockRunTimes ts ⟨0, 0⟩).1.zip ts, p.1 ≤ p.2 := by
  have h0 : (⟨0, 0⟩ : ClockState) = ⟨0 % U32, 0⟩ := rfl
  rw [h0]
  have := clockRun_mono_aux ts 0 0 (Nat.le_refl 0) hmono hbound
    (by unfold U64; omega)
  exact ⟨this.1.tail, this.2⟩

/-- C10 witness: calls at times spanning more than two full wrap periods
(gaps larger than 2^32 µs): the returned values still never decrease and
never exceed the true elapsed time. -/
theorem GetClockValue_monotone_witness :
    (List.Chain (· ≤ ·) 0 [100, 12884901999, 12884902100] ∧
      ∀ t ∈ [100, 12884901999, 12884902100], t < U64) ∧
    (List.Chain' (· ≤ ·)
        (clockRunTimes [100, 12884901999, 12884902100] ⟨0, 0⟩).1 ∧
      ∀ p ∈ (clockRunTimes [100, 12884901999, 12884902100] ⟨0, 0⟩).1.zip
          [100, 12884901999, 12884902100], p.1 ≤ p.2) :=
  ⟨⟨.cons (by decide) (.cons (by decide) (.cons (by decide) .nil)), by decide⟩,
    GetClockValue_monotone [100, 12884901999, 12884902100]
      (.cons (by decide) (.cons (by decide) (.cons (by decide) .nil)))
      (by decide)⟩

/-- `PerfCounter` from meg.ino: an immutable label, a `uint64_t`
accumulated duration and a `uint32_t` sample count, both zero at
construction. -/
structure PerfCounter where
  label : String
  accumulator : Nat
  counter : Nat
  deriving Repr, DecidableEq

/-- `SubmitPerfMeasurement` from meg.ino: adds the unsigned 64-bit
difference `stop - start` to the accumulator and increments the sample
count by one, each in its fixed-width arithmetic. -/
def SubmitPerfMeasurement (c : PerfCounter) (start stop : Nat) : PerfCounter :=
  { c with
    accumulator := (c.accumulator + u64sub stop start) % U64,
    counter := (c.counter + 1) % U32 }

/-- One line of serial output produced for an active counter: its label,
its average latency in microseconds, and the derived frequency in Hz. -/
structure PerfReportLine where
  label : String
  avgMicros : Nat
  hz : Nat
  deriving Repr, DecidableEq

/-- `PrintPerfCounterToSerial` from meg.ino, modelled as the report line
it prints: a counter with sample count 0 returns early and prints
nothing; otherwise the line holds the integer average
`accumulator / counter` and the frequency `1000000 / average`. -/
def PrintPerfCounterToSerial (c : PerfCounter) : Option PerfReportLine :=
  if c.counter ≤ 0 then
    none
  else
    let avgMicros := c.accumulator / c.counter
    let hz := 1000000 / avgMicros
    some ⟨c.label, avgMicros, hz⟩

/-- `PerfCounters` from meg.ino: the fixed registry of the three global
counters, in declaration order. -/
structure PerfCounters where
  allMeasurements : PerfCounter
  singleMeasurement : PerfCounter
  ble : PerfCounter
  deriving Repr, DecidableEq

/-- The registry viewed as the ordered collection its `operator[]`
iterates over (declaration order). -/
def PerfCounters.toList (r : PerfCounters) : List PerfCounter :=
  [r.allMeasurements, r.singleMeasurement, r.ble]

/-- `PrintAllPerfCountersToSerial` from meg.ino, modelled as the list of
report lines it emits: it visits every counter in registry order and
prints the ones with a nonzero sample count. -/
def PrintAllPerfCountersToSerial (r : PerfCounters) : List PerfReportLine :=
  r.toList.filterMap PrintPerfCounterToSerial

/-- The initial value of the global registry `g_PerfCounters`: every
counter starts with accumulator 0 and sample count 0. -/
def initialPerfCounters : PerfCounters :=
  ⟨⟨"allMeasurements", 0, 0⟩, ⟨"singleMeasurement", 0, 0⟩, ⟨"ble", 0, 0⟩⟩

/-- The operations that mutate a performance counter over the lifetime
of the process.  `SubmitPerfMeasurement` is the only writer in the
source: every other access (`size`, `operator[]`,
`PrintPerfCounterToSerial`) only reads. -/
inductive PerfCounterOp where
  | submit (start stop : Nat) : PerfCounterOp
  deriving Repr, DecidableEq

/-- Effect of a mutating operation on a counter. -/
def PerfCounterOp.apply : PerfCounterOp → PerfCounter → PerfCounter
  | .submit start stop, c => SubmitPerfMeasurement c start stop

/-- Sanity conditions under which the fixed-width arithmetic of an
operation does not wrap: the measured scope exits no earlier than it
entered, the clock values fit in 64 bits, and neither the accumulator
nor the sample count is at its maximum. -/
def PerfCounterOpWF : PerfCounterOp → PerfCounter → Prop
  | .submit start stop, c =>
      start ≤ stop ∧ stop < U64 ∧
      c.accumulator + (stop - start) < U64 ∧ c.counter + 1 < U32

lemma u64sub_exact (a b : Nat) (hle : b ≤ a) (ha : a < U64) :
    u64sub a b = a - b := by
  unfold u64sub U64 at *
  omega

/-- C6: every operation on a counter preserves its label and never
decreases or clears its accumulated duration or its sample count:
submitting a scoped measurement adds exactly the measured duration
`stop - start` to the accumulator and increments the sample count by
exactly one, and no other mutating operation exists. -/
theorem perfCounter_only_grows (op : PerfCounterOp) (c : PerfCounter)
    (hwf : PerfCounterOpWF op c) :
    (op.apply c).label = c.label ∧
    c.accumulator ≤ (op.apply c).accumulator ∧
    c.counter ≤ (op.apply c).counter ∧
    (op.apply c).counter = c.counter + 1 ∧
    (match op with
      | .submit start stop =>
          (op.apply c).accumulator = c.accumulator + (stop - start)) := by
  rcases op with ⟨start, stop⟩
  rcases hwf with ⟨hle, hlt, hacc, hcnt⟩
  have hs : u64sub stop start = stop - start := u64sub_exact stop start hle hlt
  unfold U64 at hacc
  unfold U32 at hcnt
  simp only [PerfCounterOp.apply, SubmitPerfMeasurement, hs, U64, U32]
  refine ⟨by trivial, by omega, by omega, by omega, by omega⟩

/-- C6 witness: submitting the measurement [10, 25] to the `ble` counter
holding accumulator 100 and count 2. -/
theorem perfCounter_only_grows_witness :
    PerfCounterOpWF (.submit 10 25) ⟨"ble", 100, 2⟩ ∧
    (((PerfCounterOp.submit 10 25).apply ⟨"ble", 100, 2⟩).label = "ble" ∧
      (100 : Nat) ≤ ((PerfCounterOp.submit 10 25).apply ⟨"ble", 100, 2⟩).accumulator ∧
      (2 : Nat) ≤ ((PerfCounterOp.submit 10 25).apply ⟨"ble", 100, 2⟩).counter ∧
      ((PerfCounterOp.submit 10 25).apply ⟨"ble", 100, 2⟩).counter = 2 + 1 ∧
      ((PerfCounterOp.submit 10 25).apply ⟨"ble", 100, 2⟩).accumulator =
        100 + (25 - 10)) :=
  ⟨by unfold PerfCounterOpWF U64 U32; decide,
    perfCounter_only_grows (.submit 10 25) ⟨"ble", 100, 2⟩
      (by unfold PerfCounterOpWF U64 U32; decide)⟩

lemma filterMap_eq_filter_map {α β : Type} (p : α → Bool) (g : α → β)
    (f : α → Option β) (hf : ∀ a, f a = if p a then some (g a) else none) :
    ∀ l : List α, l.filterMap f = (l.filter p).map g := by
  intro l
  induction l with
  | nil => rfl
  | cons a t ih =>
      rw [List.filterMap_cons, List.filter_cons]
      cases hpa : p a <;> simp [hf a, hpa, ih]

lemma PrintPerfCounterToSerial_eq_ite (c : PerfCounter) :
    PrintPerfCounterToSerial c =
      if c.counter != 0 then
        some ⟨c.label, c.accumulator / c.counter,
          1000000 / (c.accumulator / c.counter)⟩
      else none := by
  unfold PrintPerfCounterToSerial
  rcases Nat.eq_zero_or_pos c.counter with h | h
  · simp [h]
  · have hne : c.counter ≠ 0 := Nat.pos_iff_ne_zero.mp h
    simp [Nat.le_zero, hne]

/-- C5: the registry report contains one line per counter with a nonzero
sample count, in registry order, each line carrying the counter's label,
its average latency `accumulator / counter` (integer division) and the
derived frequency `1000000 / average`; a counter with sample count 0
produces no line (the printing function returns before any division). -/
theorem PrintAllPerfCounters_report (r : PerfCounters) :
    PrintAllPerfCountersToSerial r =
      (r.toList.filter (fun c => c.counter != 0)).map
        (fun c =>
          ⟨c.label, c.accumulator / c.counter,
            1000000 / (c.accumulator / c.counter)⟩) ∧
    ∀ c : PerfCounter, PrintPerfCounterToSerial c = none ↔ c.counter = 0 := by
  constructor
  · exact filterMap_eq_filter_map (fun c => c.counter != 0)
      (fun c =>
        ⟨c.label, c.accumulator / c.counter,
          1000000 / (c.accumulator / c.counter)⟩)
      PrintPerfCounterToSerial PrintPerfCounterToSerial_eq_ite r.toList
  · intro c
    rw [PrintPerfCounterToSerial_eq_ite c]
    rcases Nat.eq_zero_or_pos c.counter with h | h
    · simp [h]
    · have hne : c.counter ≠ 0 := Nat.pos_iff_ne_zero.mp h
      simp [hne]

/-- Claim C9 as stated is refuted by this counter state: one recorded
sample of duration 0 µs.  The sample count is positive, yet the divisor
of the second division performed by `PrintPerfCounterToSerial`
(the integer average, which divides 1000000) is zero. -/
def zeroAvgCounter : PerfCounter := ⟨"singleMeasurement", 0, 1⟩

/-- C9 counterexample: `zeroAvgCounter` has a positive sample count, but
the integer average `accumulator / counter` — the divisor of the
frequency division `1000000 / average` in `PrintPerfCounterToSerial` —
is zero, so the claim that both divisions have nonzero divisors whenever
the sample count is positive is false. -/
theorem printPerfCounter_second_divisor_can_be_zero :
    0 < zeroAvgCounter.counter ∧
    zeroAvgCounter.accumulator / zeroAvgCounter.counter = 0 ∧
    PrintPerfCounterToSerial zeroAvgCounter =
      some ⟨"singleMeasurement", 0, 1000000 / 0⟩ := by
  decide

/-- C9 (amended): printing a counter performs no division when the
sample count is 0 (the function returns `none` exactly then, before any
division); when the sample count is positive the first division's
divisor (the sample count) is nonzero, but the second division's divisor
— the integer average — is zero precisely when the accumulated duration
is smaller than the sample count, and nonzero otherwise. -/
theorem printPerfCounter_div_safety (c : PerfCounter) :
    (PrintPerfCounterToSerial c = none ↔ c.counter = 0) ∧
    (c.accumulator / c.counter = 0 ↔
      (c.counter = 0 ∨ c.accumulator < c.counter)) := by
  constructor
  · unfold PrintPerfCounterToSerial
    rcases Nat.eq_zero_or_pos c.counter with h | h
    · simp [h]
    · simp [Nat.le_zero, Nat.pos_iff_ne_zero.mp h]
  · rcases Nat.eq_zero_or_pos c.counter with h | h
    · simp [h]
    · rw [Nat.div_eq_zero_iff h]
      omega

/-- `DataMeasurement` from meg.ino: a 64-bit monotonic timestamp and a
`uint16_t` value; a default-constructed instance is the all-zero
"not measured" sentinel. -/
structure DataMeasurement where
  time : Nat := 0
  value : Nat := 0
  deriving Repr, DecidableEq

/-- `BLEDataMessage` from meg.ino: three `uint16_t` channel values. -/
structure BLEDataMessage where
  v1 : Nat := 0
  v2 : Nat := 0
  v3 : Nat := 0
  deriving Repr, DecidableEq

/-- The `BLEDataMessage(m1, m2, m3)` constructor from meg.ino: copies
each measurement's value field into the corresponding wire field in
declared order, discarding the timestamps. -/
def BLEDataMessage.ofMeasurements (m1 m2 m3 : DataMeasurement) :
    BLEDataMessage :=
  ⟨m1.value, m2.value, m3.value⟩

/-- The in-memory bytes of a `BLEDataMessage`, as the BLE stack reads
them when the struct is stored into the characteristic: per the
static_assert in meg.ino the struct is exactly three `uint16_t` fields
wide with no padding, and the little-endian ESP32 target lays the
fields out in declaration order, each least-significant byte first. -/
def BLEDataMessage.toBytes (m : BLEDataMessage) : List Nat :=
  [m.v1 % 256, m.v1 / 256 % 256, m.v2 % 256, m.v2 / 256 % 256,
    m.v3 % 256, m.v3 / 256 % 256]

/-- Modelled from the spec: the repository itself contains no decoder
for the wire message — spec section 4.4 requires a client-side
`decode(bytes)` that is the exact inverse of `encode` for any 6-byte
input, matching field order and width.  This is that decoder: it reads
three little-endian unsigned 16-bit fields from the 6 bytes, in channel
order. -/
def decode (bs : List Nat) : Nat × Nat × Nat :=
  match bs with
  | [b0, b1, b2, b3, b4, b5] =>
      (b0 + 256 * b1, b2 + 256 * b3, b4 + 256 * b5)
  | _ => (0, 0, 0)

/-- C2: `encode` copies the three measurement values into the wire
fields in channel order (channel1 = m1.value, channel2 = m2.value,
channel3 = m3.value) and discards the measurement timestamps; the wire
message is exactly 6 bytes, its three unsigned 16-bit fields laid out
little-endian in channel order — in particular measurements valued
(100, 200, 300) encode to the byte sequence
[100, 0] ++ [200, 0] ++ [44, 1]. -/
theorem BLEDataMessage_encode_spec :
    (∀ m1 m2 m3 : DataMeasurement,
      BLEDataMessage.ofMeasurements m1 m2 m3 =
        ⟨m1.value, m2.value, m3.value⟩) ∧
    (∀ m1 m2 m3 : DataMeasurement, ∀ t1 t2 t3 : Nat,
      BLEDataMessage.ofMeasurements ⟨t1, m1.value⟩ ⟨t2, m2.value⟩
          ⟨t3, m3.value⟩ =
        BLEDataMessage.ofMeasurements m1 m2 m3) ∧
    (∀ m : BLEDataMessage, m.toBytes.length = 6) ∧
    (BLEDataMessage.ofMeasurements ⟨17, 100⟩ ⟨23, 200⟩ ⟨99, 300⟩).toBytes =
      [100, 0, 200, 0, 44, 1] :=
  ⟨fun _ _ _ => rfl, fun _ _ _ _ _ _ => rfl, fun _ => rfl, by decide⟩

/-- C7: the decoder is the exact inverse of the encoder: decoding the
wire bytes of measurements encoded from any unsigned 16-bit values
returns exactly those values, and encoding the three fields decoded
from any 6-byte message reproduces the message, matching field order
and width. -/
theorem codec_roundtrip (v1 v2 v3 t1 t2 t3 : Nat) (bs : List Nat)
    (h1 : v1 < U16) (h2 : v2 < U16) (h3 : v3 < U16)
    (hlen : bs.length = 6) (hbytes : ∀ b ∈ bs, b < 256) :
    decode (BLEDataMessage.ofMeasurements ⟨t1, v1⟩ ⟨t2, v2⟩
        ⟨t3, v3⟩).toBytes = (v1, v2, v3) ∧
    (BLEDataMessage.ofMeasurements ⟨0, (decode bs).1⟩ ⟨0, (decode bs).2.1⟩
        ⟨0, (decode bs).2.2⟩).toBytes = bs := by
  constructor
  · have e : decode (BLEDataMessage.ofMeasurements ⟨t1, v1⟩ ⟨t2, v2⟩
        ⟨t3, v3⟩).toBytes =
        (v1 % 256 + 256 * (v1 / 256 % 256), v2 % 256 + 256 * (v2 / 256 % 256),
          v3 % 256 + 256 * (v3 / 256 % 256)) := rfl
    unfold U16 at h1 h2 h3
    simp only [e, Prod.mk.injEq]
    omega
  · rcases bs with _ | ⟨b0, bs⟩; · simp at hlen
    rcases bs with _ | ⟨b1, bs⟩; · simp at hlen
    rcases bs with _ | ⟨b2, bs⟩; · simp at hlen
    rcases bs with _ | ⟨b3, bs⟩; · simp at hlen
    rcases bs with _ | ⟨b4, bs⟩; · simp at hlen
    rcases bs with _ | ⟨b5, bs⟩; · simp at hlen
    rcases bs with _ | ⟨b6, bs⟩
    · have hb0 : b0 < 256 := hbytes b0 (by simp)
      have hb1 : b1 < 256 := hbytes b1 (by simp)
      have hb2 : b2 < 256 := hbytes b2 (by simp)
      have hb3 : b3 < 256 := hbytes b3 (by simp)
      have hb4 : b4 < 256 := hbytes b4 (by simp)
      have hb5 : b5 < 256 := hbytes b5 (by simp)
      simp only [decode, BLEDataMessage.ofMeasurements, BLEDataMessage.toBytes,
        List.cons.injEq, and_true]
      refine ⟨?_, ?_, ?_, ?_, ?_, ?_⟩ <;> omega
    · simp at hlen

/-- C7 witness: the values (100, 200, 300) survive an encode-decode
round trip, and the byte string [1, 2, 3, 4, 5, 6] survives a
decode-encode round trip. -/
theorem codec_roundtrip_witness :
    (100 < U16 ∧ 200 < U16 ∧ 300 < U16 ∧
      ([1, 2, 3, 4, 5, 6] : List Nat).length = 6 ∧
      ∀ b ∈ ([1, 2, 3, 4, 5, 6] : List Nat), b < 256) ∧
    (decode (BLEDataMessage.ofMeasurements ⟨0, 100⟩ ⟨0, 200⟩
        ⟨0, 300⟩).toBytes = (100, 200, 300) ∧
      (BLEDataMessage.ofMeasurements
          ⟨0, (decode [1, 2, 3, 4, 5, 6]).1⟩
          ⟨0, (decode [1, 2, 3, 4, 5, 6]).2.1⟩
          ⟨0, (decode [1, 2, 3, 4, 5, 6]).2.2⟩).toBytes =
        [1, 2, 3, 4, 5, 6]) :=
  ⟨⟨by decide, by decide, by decide, by decide, by decide⟩,
    codec_roundtrip 100 200 300 0 0 0 [1, 2, 3, 4, 5, 6]
      (by decide) (by decide) (by decide) (by decide) (by decide)⟩

/-- The analog input pin identifier `A1`; the concrete GPIO numbers do
not matter to the model, only that the three pins are distinct. -/
def A1 : Nat := 1

/-- The analog input pin identifier `A2`. -/
def A2 : Nat := 2

/-- The analog input pin identifier `A3`. -/
def A3 : Nat := 3

/-- The mutable device state threaded through one loop iteration: the
number of `micros()` calls made so far (the index into the reading
oracle), the clock globals, and the global counter registry. -/
structure DeviceState where
  micIdx : Nat
  clock : ClockState
  perf : PerfCounters
  deriving Repr, DecidableEq

/-- One hardware `micros()` read: the 32-bit counter reading comes from
the oracle `μ` at the current call index, and the call index advances. -/
def microsRead (μ : Nat → Nat) (s : DeviceState) : Nat × DeviceState :=
  (μ s.micIdx % U32, { s with micIdx := s.micIdx + 1 })

/-- `GetClockValue` acting on the whole device state: reads `micros()`
and updates the clock globals. -/
def GetClockValueDev (μ : Nat → Nat) (s : DeviceState) : Nat × DeviceState :=
  let p := microsRead μ s
  let q := GetClockValue p.1 s.clock
  (q.1, { p.2 with clock := q.2 })

/-- `ReadMeasurement` from meg.ino: the whole read is wrapped in a
scoped measurement on the `singleMeasurement` counter (`micros()` is
read at scope entry), the named analog channel is read from the
converter (the reading is passed as a `uint16_t`), the
`DataMeasurement` constructor stamps it with `GetClockValue()`, and at
scope exit `micros()` is read again and the duration is submitted. -/
def ReadMeasurement (μ adc : Nat → Nat) (pin : Nat) (s : DeviceState) :
    DataMeasurement × DeviceState :=
  let entry := microsRead μ s
  let v := adc pin % U16
  let clk := GetClockValueDev μ entry.2
  let leave := microsRead μ clk.2
  let s4 := leave.2
  (⟨clk.1, v⟩,
    { s4 with perf :=
        { s4.perf with singleMeasurement :=
            SubmitPerfMeasurement s4.perf.singleMeasurement entry.1 leave.1 } })

/-- `ReadMeasurement` from the older sketch kept at
src/esp32ble/esp32ble.ino (lines 324-328): the same scoped measurement
and clock stamp, but the body is `analogRead(A1)` — the converter is
always read on channel `A1`, ignoring the `pin` argument (there the
value field is a C `int`, which holds the converter's native-range
reading exactly). -/
def ReadMeasurement_esp32ble (μ adc : Nat → Nat) (_pin : Nat)
    (s : DeviceState) : DataMeasurement × DeviceState :=
  let entry := microsRead μ s
  let v := adc A1
  let clk := GetClockValueDev μ entry.2
  let leave := microsRead μ clk.2
  let s4 := leave.2
  (⟨clk.1, v⟩,
    { s4 with perf :=
        { s4.perf with singleMeasurement :=
            SubmitPerfMeasurement s4.perf.singleMeasurement entry.1 leave.1 } })

/-- `BLEApi::setMeasurementMessage` from meg.ino, modelled as the bytes
the characteristic holds after the call: the message's 6 wire bytes (the
write itself is delegated to the BLE stack's `setValue`). -/
def setMeasurementMessage (m : BLEDataMessage) : List Nat := m.toBytes

/-- The value of the global device state at the end of `setup()`
bring-up, before the first loop iteration: no `micros()` calls modelled
yet, clock globals zero, all counters zero. -/
def initialDeviceState : DeviceState := ⟨0, ⟨0, 0⟩, initialPerfCounters⟩

/-- One iteration of the infinite `while (true)` loop in `setup()` of
meg.ino: sample channels A1, A2, A3 in that fixed order inside a block
measured on the `allMeasurements` counter; then, inside a block
measured on the `ble` counter, encode the three measurements into a
`BLEDataMessage` and publish it to the characteristic; then print the
registry report.  Returns the next device state, the bytes now stored
in the characteristic, and the emitted report lines.  (The trailing
`delay(1000)` only spends real time and leaves this state untouched.) -/
def loopIteration (μ adc : Nat → Nat) (s : DeviceState) :
    DeviceState × List Nat × List PerfReportLine :=
  let entryAll := microsRead μ s
  let r1 := ReadMeasurement μ adc A1 entryAll.2
  let r2 := ReadMeasurement μ adc A2 r1.2
  let r3 := ReadMeasurement μ adc A3 r2.2
  let leaveAll := microsRead μ r3.2
  let s5 := leaveAll.2
  let s6 :=
    { s5 with perf :=
        { s5.perf with allMeasurements :=
            SubmitPerfMeasurement s5.perf.allMeasurements entryAll.1 leaveAll.1 } }
  let entryBle := microsRead μ s6
  let msg := BLEDataMessage.ofMeasurements r1.1 r2.1 r3.1
  let attr := setMeasurementMessage msg
  let leaveBle := microsRead μ entryBle.2
  let s9 := leaveBle.2
  let s10 :=
    { s9 with perf :=
        { s9.perf with ble :=
            SubmitPerfMeasurement s9.perf.ble entryBle.1 leaveBle.1 } }
  (s10, attr, PrintAllPerfCountersToSerial s10.perf)

/-- C4 (amended): in meg.ino, `ReadMeasurement(pin)` returns a
measurement whose value is the converter's reading of the named channel
(any reading in the unsigned 16-bit range is accepted as-is, with no
validation), whose timestamp is the monotonic clock value computed by
`GetClockValue` during the call (and the clock is not advanced again
before the function returns), with the entire read wrapped in a scoped
measurement on the `singleMeasurement` counter, which alone is
updated; in the older sketch at src/esp32ble/esp32ble.ino, however, the
channel argument is ignored and channel A1 is always read. -/
theorem ReadMeasurement_correct (μ adc : Nat → Nat) (pin : Nat)
    (s : DeviceState) (hadc : adc pin < U16) :
    (ReadMeasurement μ adc pin s).1.value = adc pin ∧
    (ReadMeasurement μ adc pin s).1.time =
      (GetClockValue (μ (s.micIdx + 1) % U32) s.clock).1 ∧
    (ReadMeasurement μ adc pin s).2.clock.accumulator =
      (ReadMeasurement μ adc pin s).1.time ∧
    (ReadMeasurement μ adc pin s).2.perf.singleMeasurement =
      SubmitPerfMeasurement s.perf.singleMeasurement
        (μ s.micIdx % U32) (μ (s.micIdx + 2) % U32) ∧
    (ReadMeasurement μ adc pin s).2.perf.allMeasurements =
      s.perf.allMeasurements ∧
    (ReadMeasurement μ adc pin s).2.perf.ble = s.perf.ble := by
  unfold ReadMeasurement GetClockValueDev microsRead
  exact ⟨Nat.mod_eq_of_lt hadc, rfl, rfl, rfl, rfl, rfl⟩

/-- C4 witness: sampling pin A2 of a converter reading 1000 + pin, with
micros() readings 10 * call-index, from the initial device state. -/
theorem ReadMeasurement_correct_witness :
    ((fun p => 1000 + p) A2 < U16) ∧
    ((ReadMeasurement (fun n => 10 * n) (fun p => 1000 + p) A2
          initialDeviceState).1.value = (fun p => 1000 + p) A2 ∧
      (ReadMeasurement (fun n => 10 * n) (fun p => 1000 + p) A2
          initialDeviceState).1.time =
        (GetClockValue ((fun n => 10 * n) (initialDeviceState.micIdx + 1) % U32)
            initialDeviceState.clock).1 ∧
      (ReadMeasurement (fun n => 10 * n) (fun p => 1000 + p) A2
          initialDeviceState).2.clock.accumulator =
        (ReadMeasurement (fun n => 10 * n) (fun p => 1000 + p) A2
            initialDeviceState).1.time ∧
      (ReadMeasurement (fun n => 10 * n) (fun p => 1000 + p) A2
          initialDeviceState).2.perf.singleMeasurement =
        SubmitPerfMeasurement initialDeviceState.perf.singleMeasurement
          ((fun n => 10 * n) initialDeviceState.micIdx % U32)
          ((fun n => 10 * n) (initialDeviceState.micIdx + 2) % U32) ∧
      (ReadMeasurement (fun n => 10 * n) (fun p => 1000 + p) A2
          initialDeviceState).2.perf.allMeasurements =
        initialDeviceState.perf.allMeasurements ∧
      (ReadMeasurement (fun n => 10 * n) (fun p => 1000 + p) A2
          initialDeviceState).2.perf.ble = initialDeviceState.perf.ble) :=
  ⟨by decide,
    ReadMeasurement_correct (fun n => 10 * n) (fun p => 1000 + p) A2
      initialDeviceState (by decide)⟩

/-- C4 counterexample: the claim as stated fails on the
src/esp32ble/esp32ble.ino variant it cites — asked to sample channel
A2 of a converter whose channels read 100 times the pin number, the
function returns channel A1's reading (100) instead of channel A2's
reading (200). -/
theorem ReadMeasurement_esp32ble_wrong_channel :
    (ReadMeasurement_esp32ble (fun _ => 0) (fun p => 100 * p) A2
        initialDeviceState).1.value = 100 * A1 ∧
    (ReadMeasurement_esp32ble (fun _ => 0) (fun p => 100 * p) A2
        initialDeviceState).1.value ≠ (fun p => 100 * p) A2 := by
  decide

/-- C3: one loop iteration, given converter readings 111, 222, 333 on
channels A1, A2, A3, leaves the characteristic holding exactly the
encoded wire bytes of (111, 222, 333), increments the sample counts of
the `allMeasurements` counter (around the whole sampling block) and the
`ble` counter (around encode-and-publish) by exactly one each, and
emits the registry report of the updated counters. -/
theorem loopIteration_end_to_end (μ adc : Nat → Nat) (s : DeviceState)
    (h1 : adc A1 = 111) (h2 : adc A2 = 222) (h3 : adc A3 = 333)
    (hall : s.perf.allMeasurements.counter + 1 < U32)
    (hble : s.perf.ble.counter + 1 < U32) :
    (loopIteration μ adc s).2.1 =
      (BLEDataMessage.ofMeasurements ⟨0, 111⟩ ⟨0, 222⟩ ⟨0, 333⟩).toBytes ∧
    (loopIteration μ adc s).2.1 = [111, 0, 222, 0, 77, 1] ∧
    (loopIteration μ adc s).1.perf.allMeasurements.counter =
      s.perf.allMeasurements.counter + 1 ∧
    (loopIteration μ adc s).1.perf.ble.counter = s.perf.ble.counter + 1 ∧
    (loopIteration μ adc s).2.2 =
      PrintAllPerfCountersToSerial (loopIteration μ adc s).1.perf := by
  simp only [loopIteration, ReadMeasurement, GetClockValueDev, microsRead,
    setMeasurementMessage, BLEDataMessage.ofMeasurements,
    BLEDataMessage.toBytes, SubmitPerfMeasurement, h1, h2, h3]
  refine ⟨?_, ?_, ?_, ?_, by trivial⟩
  · simp [U16]
  · simp [U16]
  · exact Nat.mod_eq_of_lt hall
  · exact Nat.mod_eq_of_lt hble

/-- C3 witness: one iteration from the initial device state with a
converter reading 111 times the pin number and micros() readings equal
to the call index. -/
theorem loopIteration_end_to_end_witness :
    ((fun p => 111 * p) A1 = 111 ∧ (fun p => 111 * p) A2 = 222 ∧
      (fun p => 111 * p) A3 = 333 ∧
      initialDeviceState.perf.allMeasurements.counter + 1 < U32 ∧
      initialDeviceState.perf.ble.counter + 1 < U32) ∧
    ((loopIteration (fun n => n) (fun p => 111 * p)
          initialDeviceState).2.1 =
        (BLEDataMessage.ofMeasurements ⟨0, 111⟩ ⟨0, 222⟩ ⟨0, 333⟩).toBytes ∧
      (loopIteration (fun n => n) (fun p => 111 * p)
          initialDeviceState).2.1 = [111, 0, 222, 0, 77, 1] ∧
      (loopIteration (fun n => n) (fun p => 111 * p)
          initialDeviceState).1.perf.allMeasurements.counter =
        initialDeviceState.perf.allMeasurements.counter + 1 ∧
      (loopIteration (fun n => n) (fun p => 111 * p)
          initialDeviceState).1.perf.ble.counter =
        initialDeviceState.perf.ble.counter + 1 ∧
      (loopIteration (fun n => n) (fun p => 111 * p)
          initialDeviceState).2.2 =
        PrintAllPerfCountersToSerial
          (loopIteration (fun n => n) (fun p => 111 * p)
              initialDeviceState).1.perf) :=
  ⟨⟨by decide, by decide, by decide, by decide, by decide⟩,
    loopIteration_end_to_end (fun n => n) (fun p => 111 * p)
      initialDeviceState (by decide) (by decide) (by decide)
      (by decide) (by decide)⟩

end meg
